import Mathlib

set_option maxRecDepth 8000

/-!
Shallow embedding of the secure archive-ingestion core of the shiba repository
(`src/api/handlers/gameUpload.go`), together with the Go standard-library string
and path routines the handler calls (`strings.HasPrefix`/`HasSuffix`,
`path/filepath.Clean`/`Join`/`Abs` with the Unix separator, `unicode.IsSpace`,
`strings.Map`/`ReplaceAll`).  Machine integers of the source (`uint64` counters
and sizes) are modelled as `Nat`, with an explicit `% 2 ^ 64` at the one
accumulation where the source can wrap (`totalUncompressed += uc` in
`lolCheckForZipBomb`); the streaming counters cannot wrap because every read
chunk is bounded by the 64 KiB buffer and the budgets abort far below `2 ^ 64`.
-/

/-! ## Go `strings` helpers -/

/-- Boolean prefix test on character lists; `leadsWith p l` is true when `p`
is an initial segment of `l`.  Backs the embedding of Go `strings.HasPrefix`. -/
def leadsWith : List Char → List Char → Bool
  | [], _ => true
  | _ :: _, [] => false
  | a :: as, b :: bs => a == b && leadsWith as bs

/-- Go `strings.HasPrefix s pre`. -/
def strStartsWith (s p : String) : Bool := leadsWith p.data s.data

/-- Go `strings.HasSuffix s suf`. -/
def strEndsWith (s p : String) : Bool := leadsWith p.data.reverse s.data.reverse

/-! ## Go `path/filepath` on Unix (`os.PathSeparator = '/'`) -/

/-- Split a character list at every `'/'` (keeping empty segments, like
splitting `"a//b"` into `a`, ``, `b`). -/
def splitSlash : List Char → List (List Char)
  | [] => [[]]
  | c :: rest =>
    let r := splitSlash rest
    if c = '/' then [] :: r
    else
      match r with
      | [] => [[c]]
      | h :: t => (c :: h) :: t

/-- The component stack of Go `filepath.Clean`: push a normal component, pop on
`..` (except that `..` accumulates at the front of a relative path and is
dropped at the root of an absolute one).  `acc` is the stack, most recent
component first. -/
def cleanFold (rooted : Bool) : List (List Char) → List (List Char) → List (List Char)
  | acc, [] => acc
  | acc, c :: rest =>
    if c = ['.', '.'] then
      match acc with
      | [] => cleanFold rooted (if rooted then [] else [c]) rest
      | top :: accRest =>
        if top = ['.', '.'] then cleanFold rooted (c :: acc) rest
        else cleanFold rooted accRest rest
    else cleanFold rooted (c :: acc) rest

/-- Join path components with `'/'`. -/
def joinComps : List (List Char) → List Char
  | [] => []
  | [c] => c
  | c :: rest => c ++ '/' :: joinComps rest

/-- Character-level body of Go `filepath.Clean` (Unix): shortest lexically
equivalent path — iterated separators and `.` dropped, `..` resolved against
preceding components, rooted paths never climb above `/`, empty input cleans
to `.`. -/
def cleanChars (cs : List Char) : List Char :=
  match cs with
  | [] => ['.']
  | c₀ :: _ =>
    let rooted := c₀ = '/'
    let comps := (splitSlash cs).filter (fun c => ¬ (c = [] ∨ c = ['.']))
    let stack := (cleanFold rooted [] comps).reverse
    if rooted then '/' :: joinComps stack
    else if stack = [] then ['.'] else joinComps stack

/-- Go `filepath.Clean` (Unix separator). -/
def Clean (p : String) : String := ⟨cleanChars p.data⟩

/-- Go `filepath.Join` on two elements: empty elements are skipped and the
result is `Clean`ed, so `Join a b = Clean (a ++ "/" ++ b)` for non-empty
`a`, `b`. -/
def goJoin2 (a b : String) : String :=
  if a = "" then if b = "" then "" else Clean b
  else if b = "" then Clean a
  else Clean (a ++ "/" ++ b)

/-- Go `filepath.IsAbs` (Unix): the path starts with `/`. -/
def goIsAbs (p : String) : Bool := strStartsWith p "/"

/-- Go `filepath.Abs` (Unix): `Clean` an absolute path, otherwise join onto the
process working directory.  The working directory — process-wide hidden state
read through `os.Getwd` — is made an explicit parameter `cwd` here. -/
def goAbs (cwd p : String) : String :=
  if goIsAbs p then Clean p else goJoin2 cwd p

/-! ## `gameUpload.go` leaf functions -/

/-- `validateZipFilePath` (gameUpload.go:23-37): clean the candidate entry
name, resolve the destination directory and the joined candidate to absolute
form, and accept exactly when the absolute destination followed by the path
separator is a prefix of the absolute candidate.  `cwd` is the process working
directory consulted by `filepath.Abs` for relative inputs. -/
def validateZipFilePath (cwd filePath destDir : String) : Bool :=
  let cleanPath := Clean filePath
  let absDestDir := goAbs cwd destDir
  let absFilePath := goAbs cwd (goJoin2 destDir cleanPath)
  strStartsWith absFilePath (absDestDir ++ "/")

/-- `isAllowedFileType` (gameUpload.go:39-45): only names ending in `.zip`. -/
def isAllowedFileType (fileName : String) : Bool := strEndsWith fileName ".zip"

/-- `maxZipEntries` (gameUpload.go:49). -/
def maxZipEntries : Nat := 2000

/-- `maxTotalUncompressedBytes` (gameUpload.go:50): `500 << 20`. -/
def maxTotalUncompressedBytes : Nat := 500 <<< 20

/-- `maxPerFileUncompressed` (gameUpload.go:51): `200 << 20`. -/
def maxPerFileUncompressed : Nat := 200 <<< 20

/-- The source constant `maxCompressionRatio = 100` (gameUpload.go:52). -/
def maxCompressionRatioLimit : Nat := 100

/-- Go `unicode.IsSpace`: the Unicode White_Space property
(`\t \n \v \f \r` space, U+0085, U+00A0, U+1680, U+2000–U+200A, U+2028,
U+2029, U+202F, U+205F, U+3000). -/
def goIsSpace (c : Char) : Bool :=
  c == ' ' || c == '\t' || c == '\n' || c == '\x0b' || c == '\x0c' ||
  c == '\r' || c == '\x85' || c == '\xa0' || c == '\u1680' ||
  (0x2000 ≤ c.toNat && c.toNat ≤ 0x200a) ||
  c == '\u2028' || c == '\u2029' || c == '\u202f' || c == '\u205f' || c == '\u3000'

/-- Expand every character of a list into a list of characters (the shape of a
Go `strings.ReplaceAll` whose pattern is a single character). -/
def expandChars (f : Char → List Char) : List Char → List Char
  | [] => []
  | c :: rest => f c ++ expandChars f rest

/-- `sanitizeForAirtableFormula` (gameUpload.go:110-120): drop every character
for which `unicode.IsSpace` holds (`strings.Map` returning `-1`), then replace
every backslash by two backslashes, then replace every double quote by
backslash-backslash-quote (the source's raw-string replacement `\\"`). -/
def sanitizeForAirtableFormula (input : String) : String :=
  let s1 := input.data.filter (fun c => ¬ goIsSpace c)
  let s2 := expandChars (fun c => if c = '\\' then ['\\', '\\'] else [c]) s1
  let s3 := expandChars (fun c => if c = '\"' then ['\\', '\\', '\"'] else [c]) s2
  ⟨s3⟩

/-- A double quote occurs that is not immediately escaped by a backslash:
scanning left to right, a backslash consumes the following character, and a
bare `"` reached by the scan is unescaped.  Such a quote terminates the string
literal the token is interpolated into in the Airtable formula. -/
def hasUnescapedQuote : List Char → Bool
  | [] => false
  | '\\' :: _ :: rest => hasUnescapedQuote rest
  | ['\\'] => false
  | '\"' :: _ => true
  | _ :: rest => hasUnescapedQuote rest

/-! ## Archive entries and the bomb detector -/

/-- One record of the uploaded zip archive's central directory, as consumed by
the handler: the declared (untrusted) name, directory flag and sizes, plus the
bytes the decompression stream actually produces, given as the byte counts of
the successive `rc.Read` results into the 64 KiB buffer (`chunks`).  The
remaining fields are outcome oracles for the per-entry filesystem and stream
calls of the extraction loop (`os.MkdirAll` on the parent, `f.Open`,
`os.OpenFile`, a failing `Write` at a given chunk index, a non-EOF read error
after the chunks). -/
structure ZipEntry where
  name : String
  isDir : Bool := false
  uncompressedSize64 : Nat := 0
  uncompressedSize32 : Nat := 0
  compressedSize64 : Nat := 0
  compressedSize32 : Nat := 0
  chunks : List Nat := []
  parentMkdirOk : Bool := true
  openOk : Bool := true
  createOk : Bool := true
  writeFail : Option Nat := none
  readErr : Option String := none
deriving DecidableEq

/-- Effective declared uncompressed size (gameUpload.go:84-87): the 64-bit
field, falling back to the 32-bit field when the former is zero. -/
def effUC (e : ZipEntry) : Nat :=
  if e.uncompressedSize64 = 0 ∧ 0 < e.uncompressedSize32 then e.uncompressedSize32
  else e.uncompressedSize64

/-- Effective declared compressed size (gameUpload.go:93-96). -/
def effCS (e : ZipEntry) : Nat :=
  if e.compressedSize64 = 0 ∧ 0 < e.compressedSize32 then e.compressedSize32
  else e.compressedSize64

/-- Loop body of `lolCheckForZipBomb` (gameUpload.go:72-108), carrying the
running counted-entry and declared-total accumulators; the total is a `uint64`
in the source, hence the explicit wrap. -/
def bombCheckGo : List ZipEntry → Nat → Nat → Except String Unit
  | [], _, _ => .ok ()
  | f :: rest, entries, total =>
    if strStartsWith f.name "__MACOSX/" = true then bombCheckGo rest entries total
    else
      let entriesN := entries + 1
      if entriesN > maxZipEntries then .error "too many files in archive"
      else
        let uc := effUC f
        let totalN := (total + uc) % 2 ^ 64
        if totalN > maxTotalUncompressedBytes then .error "total uncompressed size exceeds limit"
        else
          let cs := effCS f
          if 0 < cs ∧ 0 < uc ∧ maxCompressionRatioLimit < uc / cs then
            .error "excessive compression ratio detected"
          else if uc > maxPerFileUncompressed then
            .error "a file exceeds per-file uncompressed size limit"
          else bombCheckGo rest entriesN totalN

/-- `lolCheckForZipBomb` (gameUpload.go:72-108): metadata-only scan of the
archive's entry list. -/
def lolCheckForZipBomb (files : List ZipEntry) : Except String Unit :=
  bombCheckGo files 0 0

deriving instance DecidableEq for Except

/-! ## HTTP responses of the handler -/

/-- The three response shapes the handler writes: `http.Error` plain text, the
structured JSON body of `jsonValidationError` (fields `error`,
`validationError: true`, `details`), and the 200 success JSON
`ok/gameId/playUrl`. -/
inductive GoResponse where
  | plainText (status : Nat) (body : String)
  | jsonValidation (status : Nat) (errMsg details : String)
  | okJson (gameId playUrl : String)
deriving DecidableEq

/-- `jsonValidationError` (gameUpload.go:55-63). -/
def jsonValidationError (status : Nat) (msg details : String) : GoResponse :=
  .jsonValidation status msg details

/-- Whether a response is the structured JSON validation-error body. -/
def isJsonValidationResp : GoResponse → Bool
  | .jsonValidation _ _ _ => true
  | _ => false

/-! ## The streaming extractor -/

/-- Result of the per-entry chunk copy loop (gameUpload.go:315-353): either the
entry completed, or the loop returned early with a response.  `totalWritten` is
the handler's running aggregate counter at that moment; `written` is the ghost
log of the chunk lengths actually written to the output file, in order;
`fileRemoved` records whether `os.Remove(fpath)` ran before the return. -/
inductive CopyOutcome where
  | done (totalWritten : Nat) (written : List Nat)
  | abort (resp : GoResponse) (totalWritten : Nat) (written : List Nat) (fileRemoved : Bool)
deriving DecidableEq

/-- Chunk copy loop (gameUpload.go:316-353).  For each read of `n > 0` bytes
the counters are incremented first, then the per-file budget is checked, then
the aggregate budget, and only then is the chunk written; a budget breach
removes the partial file and returns the structured 400 response, a write
failure returns a plain 500 without removing the file, and exhausting the
chunks either hits the read-error oracle (plain 500) or ends the entry.
`dname` is `f.Name` (used as the `details` of the per-file breach response),
`idx/wf/tw` are the write index, `writtenForFile` and `totalWritten` counters,
`acc` the reversed ghost log of written chunks. -/
def copyAux (dname : String) (e : ZipEntry) :
    List Nat → Nat → Nat → Nat → List Nat → CopyOutcome
  | [], _, _, tw, acc =>
    match e.readErr with
    | some m => .abort (.plainText 500 ("Failed to read file in zip: " ++ m)) tw acc.reverse false
    | none => .done tw acc.reverse
  | n :: rest, idx, wf, tw, acc =>
    if 0 < n then
      let wfN := wf + n
      let twN := tw + n
      if wfN > maxPerFileUncompressed then
        .abort (jsonValidationError 400 "File too large after decompression" dname) twN acc.reverse true
      else if twN > maxTotalUncompressedBytes then
        .abort (jsonValidationError 400 "Archive total uncompressed size limit exceeded" "") twN acc.reverse true
      else if e.writeFail = some idx then
        .abort (.plainText 500 "Failed to write file: write error") twN acc.reverse false
      else copyAux dname e rest (idx + 1) wfN twN (n :: acc)
    else copyAux dname e rest idx wf tw acc

/-- The copy loop as entered for an entry: fresh per-file counter, aggregate
counter continuing from `tw`. -/
def copyLoop (dname : String) (e : ZipEntry) (tw : Nat) : CopyOutcome :=
  copyAux dname e e.chunks 0 0 tw []

/-- Filesystem state below the destination directory during extraction:
the handler's aggregate counter, the regular files present with the chunk
lengths written to each, and the directories created. -/
structure ExtractState where
  totalWritten : Nat
  files : List (String × List Nat)
  dirs : List String
deriving DecidableEq

/-- State at the start of extraction. -/
def emptySt : ExtractState := ⟨0, [], []⟩

/-- Outcome of processing one archive entry: continue with the new state, or
return early with a response. -/
inductive EntryOutcome where
  | cont (st : ExtractState)
  | stop (resp : GoResponse) (st : ExtractState)
deriving DecidableEq

/-- One iteration of the extraction loop (gameUpload.go:271-357): skip
`__MACOSX/` entries, reject a path-traversal name with a plain 400, reject a
name that is not `.zip`-suffixed with a plain 400, create directory entries,
and stream-copy file entries under the budget checks. -/
def processEntry (cwd destDir : String) (st : ExtractState) (e : ZipEntry) : EntryOutcome :=
  if strStartsWith e.name "__MACOSX/" = true then .cont st
  else if validateZipFilePath cwd e.name destDir = false then
    .stop (.plainText 400 ("Invalid file path in zip: " ++ e.name)) st
  else if isAllowedFileType e.name = false then
    .stop (.plainText 400 ("File type not allowed: " ++ e.name)) st
  else
    let fpath := goJoin2 destDir e.name
    if e.isDir then .cont { st with dirs := st.dirs ++ [fpath] }
    else if e.parentMkdirOk = false then
      .stop (.plainText 500 "Failed to create directory: mkdir error") st
    else if e.openOk = false then
      .stop (.plainText 500 "Failed to open file in zip: open error") st
    else if e.createOk = false then
      .stop (.plainText 500 "Failed to create file: create error") st
    else
      match copyLoop e.name e st.totalWritten with
      | .done tw w => .cont { st with totalWritten := tw, files := st.files ++ [(fpath, w)] }
      | .abort resp tw w removed =>
          .stop resp
            { st with
              totalWritten := tw
              files := if removed then st.files else st.files ++ [(fpath, w)] }

/-- The extraction loop over the archive's entries in order. -/
def extractAll (cwd destDir : String) :
    List ZipEntry → ExtractState → Except (GoResponse × ExtractState) ExtractState
  | [], st => .ok st
  | e :: rest, st =>
    match processEntry cwd destDir st e with
    | .cont stN => extractAll cwd destDir rest stN
    | .stop resp stN => .error (resp, stN)

/-- Total bytes present in files below the destination directory. -/
def diskTotal (st : ExtractState) : Nat := (st.files.map (fun p => p.2.sum)).sum

/-- Every file on disk respects the per-file budget. -/
def FilesOk (st : ExtractState) : Prop :=
  ∀ p ∈ st.files, p.2.sum ≤ maxPerFileUncompressed

/-! ## The handler from temp-file creation onward -/

/-- Outcome oracles for the handler steps after `os.CreateTemp` succeeds
(gameUpload.go:228 onward): the `io.Copy` into the temp file, `tmpFile.Close`,
`zip.OpenReader` (with the parsed entries on success), `uuid.NewV7` (with the
identifier string on success), and `os.MkdirAll` of the destination. -/
structure UploadEnv where
  copyOk : Bool := true
  closeOk : Bool := true
  zipRes : Option (List ZipEntry)
  uuidRes : Option String
  mkdirDestOk : Bool := true
  cwd : String := "/"
deriving DecidableEq

/-- How a request that reached temp-file creation ends: a response is written
(and the deferred `os.Remove(tmpFile.Name())` has run), or the process exits
through `log.Fatal` — `os.Exit(1)` — which does not run deferred calls. -/
inductive HandlerOutcome where
  | responded (resp : GoResponse) (tempRemoved : Bool) (st : ExtractState)
  | fatalExit
deriving DecidableEq

/-- Whether the temporary upload file was removed by the end of the request. -/
def HandlerOutcome.tempFileRemoved : HandlerOutcome → Bool
  | .responded _ r _ => r
  | .fatalExit => false

/-- `GameUploadHandler` (gameUpload.go:174-389) from the successful
`os.CreateTemp` on: `defer os.Remove(tmpFile.Name())` is pending, so every
`return` path reports the temp file removed; the `log.Fatal` on a `uuid.NewV7`
error terminates the process without running the defer.  Steps in source
order: copy to temp, close temp, open as zip (400 on failure), mint the
identifier, create `/games/<id>/`, run the bomb detector (structured 400 on
failure), extract, and on success respond 200 with `gameId` and
`playUrl = "/play/" ++ id ++ "/"`. -/
def gameUploadAfterTemp (env : UploadEnv) : HandlerOutcome :=
  if env.copyOk = false then
    .responded (.plainText 500 "Failed to write uploaded file: copy error") true emptySt
  else if env.closeOk = false then
    .responded (.plainText 500 "Failed to close temp file: close error") true emptySt
  else
    match env.zipRes with
    | none => .responded (.plainText 400 "Uploaded file is not a valid zip: zip error") true emptySt
    | some entries =>
      match env.uuidRes with
      | none => .fatalExit
      | some gid =>
        let destDir := Clean ("/games/" ++ gid ++ "/")
        if env.mkdirDestOk = false then
          .responded (.plainText 500 "Failed to create game directory: mkdir error") true emptySt
        else
          match lolCheckForZipBomb entries with
          | .error m => .responded (jsonValidationError 400 "Zip validation failed" m) true emptySt
          | .ok _ =>
            match extractAll env.cwd destDir entries emptySt with
            | .error (resp, st) => .responded resp true st
            | .ok st => .responded (.okJson gid ("/play/" ++ gid ++ "/")) true st

/-! ## The Path Sanitizer as the specification words it -/

/-- The Path Sanitizer as §4.2 of the specification describes it, written from
the spec's words for comparison with `validateZipFilePath`: lexically clean the
candidate, join it onto the destination root, resolve the joined path and the
root to absolute form, and require the resolved root followed by the separator
to be a strict prefix of the resolved candidate. -/
def isSafeSpec (cwd candidateName destRoot : String) : Bool :=
  let cleaned := Clean candidateName
  let joined := goJoin2 destRoot cleaned
  let resolvedCandidate := goAbs cwd joined
  let resolvedRoot := goAbs cwd destRoot
  strStartsWith resolvedCandidate (resolvedRoot ++ "/")

/-! ## Concrete fixtures used by counterexamples and witnesses -/

/-- The 10-byte `a.txt` entry of the §8 upload scenario. -/
def aTxtEntry : ZipEntry :=
  { name := "a.txt", uncompressedSize64 := 10, compressedSize64 := 10, chunks := [10] }

/-- The 20-byte `b/c.txt` entry of the §8 upload scenario. -/
def bcTxtEntry : ZipEntry :=
  { name := "b/c.txt", uncompressedSize64 := 20, compressedSize64 := 20, chunks := [20] }

/-- The `b/` directory entry of the §8 upload scenario. -/
def bDirEntry : ZipEntry := { name := "b/", isDir := true }

/-- A traversal name hidden under the `__MACOSX/` convention. -/
def macosEvilEntry : ZipEntry := { name := "__MACOSX/../../evil.txt" }

/-- The `../../evil.txt` traversal entry of the §8 scenario. -/
def evilEntry : ZipEntry := { name := "../../evil.txt" }

/-- Declared sizes 201:2 — real ratio 100.5:1, integer quotient 100. -/
def ratioEntry201 : ZipEntry :=
  { name := "x.bin", uncompressedSize64 := 201, compressedSize64 := 2 }

/-- Declared sizes 202:2 — integer quotient 101. -/
def ratioEntry202 : ZipEntry :=
  { name := "x.bin", uncompressedSize64 := 202, compressedSize64 := 2 }

/-- A syntactically plausible 36-character submission identifier. -/
def uuidSample : String := "0192f3a8-7c1d-7e2b-9a4c-5d6e7f801234"

/-- The §8 scenario upload: valid token path reached, archive with `a.txt`,
`b/c.txt` and `b/`, everything else succeeding. -/
def scenarioEnv : UploadEnv :=
  { zipRes := some [aTxtEntry, bcTxtEntry, bDirEntry], uuidRes := some uuidSample }

/-- A request whose `uuid.NewV7` call fails. -/
def fatalEnv : UploadEnv := { zipRes := some [], uuidRes := none }

/-- An upload whose archive contains the traversal entry. -/
def evilUploadEnv : UploadEnv :=
  { zipRes := some [evilEntry], uuidRes := some uuidSample }

/-- 3201 reads of a full 64 KiB buffer: 209 780 736 bytes, just past the
200 MiB per-file budget on the last chunk. -/
def bigChunks : List Nat := List.replicate 3200 65536 ++ [65536]

/-- A single file entry whose decompressed stream is `bigChunks` while its
declared sizes are zero (forged metadata). -/
def bigEntry : ZipEntry := { name := "big.zip", chunks := bigChunks }

/-- A one-chunk, ten-byte file entry. -/
def smallEntry : ZipEntry := { name := "s.zip", chunks := [10] }

/-- An entry whose stream delivers a single chunk past the per-file budget in
one read (a model input used to instantiate universally quantified lemmas). -/
def hugeChunkEntry : ZipEntry := { name := "h.zip", chunks := [300000000] }

/-- The extraction state present on disk when the loop ends, for a completed
or an aborted extraction alike. -/
def extractResultState :
    Except (GoResponse × ExtractState) ExtractState → ExtractState
  | .ok st => st
  | .error (_, st) => st

/-! ## Helper lemmas -/

/-- A proper extension of a character list is never its prefix. -/
theorem leadsWith_append_cons (l : List Char) (c : Char) (ext : List Char) :
    leadsWith (l ++ c :: ext) l = false := by
  induction l with
  | nil => rfl
  | cons a as ih => simp [leadsWith, ih]

/-- A string never starts with itself extended by the separator; hence
`validateZipFilePath` rejects a candidate resolving to the root itself. -/
theorem strStartsWith_self_slash (s : String) : strStartsWith s (s ++ "/") = false := by
  obtain ⟨l⟩ := s
  exact leadsWith_append_cons l '/' []

/-! ## Claim C1 -/

/-- C1 (code bug): the §8 scenario upload — archive entries `a.txt` (10 bytes),
`b/c.txt` (20 bytes) and directory `b/`, valid token, everything else healthy —
is *not* answered 200 with `ok: true`: the allow-list `isAllowedFileType` is
applied to every inner entry name inside the extraction loop
(gameUpload.go:284), not once to the archive's own name, so the handler
answers 400 "File type not allowed: a.txt" and writes nothing.  The last two
conjuncts pin the cause: the rejected entry passes the path check and fails
only the per-entry type gate. -/
theorem scenario_upload_rejected_by_entry_type_gate :
    gameUploadAfterTemp scenarioEnv =
      .responded (.plainText 400 "File type not allowed: a.txt") true emptySt ∧
    isAllowedFileType "a.txt" = false ∧
    validateZipFilePath "/" "a.txt" (Clean ("/games/" ++ uuidSample ++ "/")) = true := by
  decide

/-! ## Claim C2 -/

/-- C2 (counterexample): an entry named under the `__MACOSX/` convention whose
name fails the path-safety check is *skipped before* the check runs — the
extractor continues with the state untouched instead of producing the
path-traversal rejection the claim requires for every entry. -/
theorem macosx_entry_skipped_before_path_check :
    validateZipFilePath "/" "__MACOSX/../../evil.txt" "/games/g" = false ∧
    processEntry "/" "/games/g" emptySt macosEvilEntry = .cont emptySt := by
  decide

/-- C2 (amended): the metadata-directory exemption applies to the Streaming
Extractor as well — a `__MACOSX/`-prefixed entry is skipped outright, before
the path-safety check, and is never extracted; for every non-exempt entry the
path-safety check runs first and a failing name stops the whole extraction
with the plain 400 path rejection. -/
theorem extractor_path_check_after_macosx_exemption (cwd destDir : String)
    (st : ExtractState) (e : ZipEntry) :
    (strStartsWith e.name "__MACOSX/" = true → processEntry cwd destDir st e = .cont st) ∧
    (strStartsWith e.name "__MACOSX/" = false →
      validateZipFilePath cwd e.name destDir = false →
      processEntry cwd destDir st e =
        .stop (.plainText 400 ("Invalid file path in zip: " ++ e.name)) st) := by
  constructor
  · intro h
    simp [processEntry, h]
  · intro h1 h2
    simp [processEntry, h1, h2]

/-- Witness for the amended C2 theorem at concrete entries. -/
theorem extractor_path_check_after_macosx_exemption_witness :
    processEntry "/" "/games/g" emptySt macosEvilEntry = .cont emptySt ∧
    processEntry "/" "/games/g" emptySt evilEntry =
      .stop (.plainText 400 "Invalid file path in zip: ../../evil.txt") emptySt :=
  ⟨(extractor_path_check_after_macosx_exemption "/" "/games/g" emptySt macosEvilEntry).1
      (by decide),
   (extractor_path_check_after_macosx_exemption "/" "/games/g" emptySt evilEntry).2
      (by decide) (by decide)⟩

/-! ## Claim C4 -/

/-- C4 (counterexample): an upload aborted by the path-traversal check is
answered with `http.Error` plain text (gameUpload.go:279), not with the
structured JSON validation body (`error`/`validationError`/`details`) used for
the limit breaches — refuting the claim at the archive containing
`../../evil.txt`. -/
theorem traversal_rejection_is_plain_text :
    gameUploadAfterTemp evilUploadEnv =
      .responded (.plainText 400 "Invalid file path in zip: ../../evil.txt") true emptySt ∧
    isJsonValidationResp (.plainText 400 "Invalid file path in zip: ../../evil.txt") = false := by
  decide

/-! ## Claim C5 -/

/-- C5 (confirmed): the Path Sanitizer computes exactly what §4.2 describes —
it accepts iff the lexically cleaned candidate, joined onto the root and
resolved to absolute form, has the absolute root followed by the separator as
a prefix (`isSafeSpec`, written from the spec's words) — and a candidate whose
resolution equals the root itself is rejected. -/
theorem path_sanitizer_matches_spec (cwd filePath destDir : String) :
    (validateZipFilePath cwd filePath destDir = isSafeSpec cwd filePath destDir) ∧
    (goAbs cwd (goJoin2 destDir (Clean filePath)) = goAbs cwd destDir →
      validateZipFilePath cwd filePath destDir = false) := by
  refine ⟨rfl, fun h => ?_⟩
  show strStartsWith (goAbs cwd (goJoin2 destDir (Clean filePath))) (goAbs cwd destDir ++ "/") = false
  rw [h]
  exact strStartsWith_self_slash _

/-- Witness for C5 at a concrete input: the candidate `.` resolves to the
destination root itself and is rejected. -/
theorem path_sanitizer_matches_spec_witness :
    validateZipFilePath "/" "." "/games/g" = false :=
  (path_sanitizer_matches_spec "/" "." "/games/g").2 (by decide)

/-! ## Claim C6 -/

/-- C6 (counterexample): declared sizes 201 uncompressed to 2 compressed — a
ratio of 100.5:1, strictly above 100:1 — pass the bomb detector: the source
compares the truncating integer quotient `uc / cs` (here 100) against 100,
so the claim's "exactly when the ratio exceeds 100:1" fails at this entry. -/
theorem ratio_just_above_100_accepted :
    100 * ratioEntry201.compressedSize64 < ratioEntry201.uncompressedSize64 ∧
    lolCheckForZipBomb [ratioEntry201] = .ok () := by
  decide

/-! ## Claim C7 -/

/-- C7 (code bug): `sanitizeForAirtableFormula` replaces a double quote by
backslash-backslash-quote, which escapes the inserted backslash and leaves the
quote itself unescaped — so a token consisting of one `"` sanitizes to `\\"`
and an unescaped quote survives, contradicting the spec's injection-prevention
intent ("escape backslash and quote characters"). -/
theorem sanitized_token_keeps_unescaped_quote :
    sanitizeForAirtableFormula "\"" = "\\\\\"" ∧
    hasUnescapedQuote (sanitizeForAirtableFormula "\"").data = true ∧
    hasUnescapedQuote (sanitizeForAirtableFormula "tok\"en").data = true := by
  decide

/-! ## Claim C8 -/

/-- C8 (counterexample): when `uuid.NewV7` fails, the handler calls
`log.Fatal` (gameUpload.go:255), i.e. `os.Exit(1)`, which does not run the
deferred `os.Remove(tmpFile.Name())` — the temporary upload file created for
this request is not removed, refuting removal "regardless of any later
step". -/
theorem uuid_failure_skips_temp_file_removal :
    gameUploadAfterTemp fatalEnv = .fatalExit ∧
    (gameUploadAfterTemp fatalEnv).tempFileRemoved = false := by
  decide

/-- C8 (amended): the deferred removal runs on every path on which the handler
returns a response — copy failure, close failure, invalid archive, bomb
rejection, every extraction abort, and success alike; the sole exception is
the identifier-generation failure, which terminates the process through
`log.Fatal` without running deferred calls. -/
theorem temp_file_removed_on_every_response (env : UploadEnv) :
    (gameUploadAfterTemp env).tempFileRemoved = true ∨
    (gameUploadAfterTemp env = .fatalExit ∧ env.uuidRes = none) := by
  obtain ⟨copyOk, closeOk, zipRes, uuidRes, mkdirDestOk, cwd⟩ := env
  cases copyOk <;> cases closeOk <;> cases zipRes <;> cases uuidRes <;> cases mkdirDestOk <;>
    simp [gameUploadAfterTemp, HandlerOutcome.tempFileRemoved]
  all_goals rename_i entries gid
  all_goals cases hb : lolCheckForZipBomb entries <;>
    simp [hb, HandlerOutcome.tempFileRemoved]
  all_goals cases he : extractAll cwd (Clean ("/games/" ++ gid ++ "/")) entries emptySt <;>
    rename_i v
  · obtain ⟨resp, st⟩ := v
    simp [he, HandlerOutcome.tempFileRemoved]
  · simp [he, HandlerOutcome.tempFileRemoved]

/-! ## Claim C9 -/

/-- C9 (counterexample): the Path Sanitizer is not a function of its two
arguments alone — `filepath.Abs` consults the process working directory, and
with the same candidate `a` and the same (relative) destination root `..` the
verdict flips between working directories `/x` and `/x/y`; the "no hidden
state" part of the claim fails. -/
theorem sanitizer_verdict_depends_on_working_directory :
    validateZipFilePath "/x" "a" ".." = false ∧
    validateZipFilePath "/x/y" "a" ".." = true := by
  decide

/-- C9 (amended): the Path Sanitizer is a deterministic function of the
candidate, the root *and* the process working directory — successive calls
with the same inputs and an unchanged working directory agree — but the
working directory is genuinely consulted: a relative root can flip the
verdict between directories. -/
theorem sanitizer_deterministic_given_working_directory :
    (∀ cwd filePath destDir : String,
      validateZipFilePath cwd filePath destDir = validateZipFilePath cwd filePath destDir) ∧
    validateZipFilePath "/x" "a" ".." ≠ validateZipFilePath "/x/y" "a" ".." :=
  ⟨fun _ _ _ => rfl, by decide⟩

/-- The per-file budget constant, evaluated. -/
theorem maxPerFileUncompressed_eq : maxPerFileUncompressed = 209715200 := by decide

/-- The aggregate budget constant, evaluated. -/
theorem maxTotalUncompressedBytes_eq : maxTotalUncompressedBytes = 524288000 := by decide

/-- Master invariant of the chunk copy loop.  Under the entry invariants —
the per-file counter equals the sum of the accumulated written chunks, and
both budgets currently hold — every outcome of `copyAux` satisfies: on
completion the aggregate counter advanced by exactly the bytes written and
both budgets still hold; on an early return the written bytes respect both
budgets, a removal (`rem = true`) happens exactly on the two budget
responses, those responses are the structured JSON validation shape, and at a
removal the aggregate counter exceeds the bytes written by exactly the
breaching (never-written) chunk. -/
theorem copyAux_spec (dname : String) (e : ZipEntry) :
    ∀ (chunks : List Nat) (idx wf tw : Nat) (acc : List Nat),
      wf = acc.sum → wf ≤ maxPerFileUncompressed → tw ≤ maxTotalUncompressedBytes →
      (∀ twq wq, copyAux dname e chunks idx wf tw acc = .done twq wq →
          twq + acc.sum = tw + wq.sum ∧ wq.sum ≤ maxPerFileUncompressed ∧
          twq ≤ maxTotalUncompressedBytes) ∧
      (∀ resp twq wq rem, copyAux dname e chunks idx wf tw acc = .abort resp twq wq rem →
          wq.sum ≤ maxPerFileUncompressed ∧
          tw + wq.sum ≤ maxTotalUncompressedBytes + acc.sum ∧
          (rem = true → ∃ n, 0 < n ∧ twq + acc.sum = tw + wq.sum + n) ∧
          (rem = true → isJsonValidationResp resp = true) ∧
          ((resp = jsonValidationError 400 "File too large after decompression" dname ∨
            resp = jsonValidationError 400 "Archive total uncompressed size limit exceeded" "")
            → rem = true)) := by
  intro chunks
  induction chunks with
  | nil =>
    intro idx wf tw acc hacc hwf htw
    constructor
    · intro twq wq h
      cases hr : e.readErr with
      | some m => simp [copyAux, hr] at h
      | none =>
        simp [copyAux, hr] at h
        obtain ⟨h1, h2⟩ := h
        subst h1; subst h2
        simp [List.sum_reverse]
        omega
    · intro resp twq wq rem h
      cases hr : e.readErr with
      | none => simp [copyAux, hr] at h
      | some m =>
        simp [copyAux, hr] at h
        obtain ⟨hresp, htwq, hwq, hrem⟩ := h
        subst hresp; subst htwq; subst hwq; subst hrem
        refine ⟨by simp [List.sum_reverse]; omega, by simp [List.sum_reverse]; omega, ?_, ?_, ?_⟩
        · intro hcontra; simp at hcontra
        · intro hcontra; simp at hcontra
        · intro hor
          rcases hor with hco | hco <;> simp [jsonValidationError] at hco
  | cons n rest ih =>
    intro idx wf tw acc hacc hwf htw
    by_cases hn : 0 < n
    · by_cases hpf : wf + n > maxPerFileUncompressed
      · constructor
        · intro twq wq h
          simp [copyAux, hn, hpf] at h
        · intro resp twq wq rem h
          simp [copyAux, hn, hpf] at h
          obtain ⟨hresp, htwq, hwq, hrem⟩ := h
          subst hresp; subst htwq; subst hwq; subst hrem
          refine ⟨by simp [List.sum_reverse]; omega, by simp [List.sum_reverse]; omega, ?_, ?_, ?_⟩
          · intro _
            exact ⟨n, hn, by simp [List.sum_reverse]; omega⟩
          · intro _; simp [jsonValidationError, isJsonValidationResp]
          · intro _; rfl
      · by_cases htot : tw + n > maxTotalUncompressedBytes
        · constructor
          · intro twq wq h
            simp [copyAux, hn, hpf, htot] at h
          · intro resp twq wq rem h
            simp [copyAux, hn, hpf, htot] at h
            obtain ⟨hresp, htwq, hwq, hrem⟩ := h
            subst hresp; subst htwq; subst hwq; subst hrem
            refine ⟨by simp [List.sum_reverse]; omega, by simp [List.sum_reverse]; omega, ?_, ?_, ?_⟩
            · intro _
              exact ⟨n, hn, by simp [List.sum_reverse]; omega⟩
            · intro _; simp [jsonValidationError, isJsonValidationResp]
            · intro _; rfl
        · by_cases hwfail : e.writeFail = some idx
          · constructor
            · intro twq wq h
              simp [copyAux, hn, hpf, htot, hwfail] at h
            · intro resp twq wq rem h
              simp [copyAux, hn, hpf, htot, hwfail] at h
              obtain ⟨hresp, htwq, hwq, hrem⟩ := h
              subst hresp; subst htwq; subst hwq; subst hrem
              refine ⟨by simp [List.sum_reverse]; omega, by simp [List.sum_reverse]; omega, ?_, ?_, ?_⟩
              · intro hcontra; simp at hcontra
              · intro hcontra; simp at hcontra
              · intro hor
                rcases hor with hco | hco <;> simp [jsonValidationError] at hco
          · have hstep : copyAux dname e (n :: rest) idx wf tw acc =
                copyAux dname e rest (idx + 1) (wf + n) (tw + n) (n :: acc) := by
              simp [copyAux, hn, hpf, htot, hwfail]
            have hrec := ih (idx + 1) (wf + n) (tw + n) (n :: acc)
              (by simp [List.sum_cons]; omega) (by omega) (by omega)
            constructor
            · intro twq wq h
              rw [hstep] at h
              obtain ⟨e1, e2, e3⟩ := hrec.1 twq wq h
              refine ⟨?_, e2, e3⟩
              simp [List.sum_cons] at e1
              omega
            · intro resp twq wq rem h
              rw [hstep] at h
              obtain ⟨e1, e2, e3, e4, e5⟩ := hrec.2 resp twq wq rem h
              simp [List.sum_cons] at e2
              refine ⟨e1, by omega, ?_, e4, e5⟩
              intro hr
              obtain ⟨m, hm, hme⟩ := e3 hr
              refine ⟨m, hm, ?_⟩
              simp [List.sum_cons] at hme
              omega
    · have hn0 : n = 0 := by omega
      subst hn0
      have hstep : copyAux dname e (0 :: rest) idx wf tw acc =
          copyAux dname e rest idx wf tw acc := by
        simp [copyAux]
      have hrec := ih idx wf tw acc hacc hwf htw
      constructor
      · intro twq wq h
        rw [hstep] at h
        exact hrec.1 twq wq h
      · intro resp twq wq rem h
        rw [hstep] at h
        exact hrec.2 resp twq wq rem h

/-- Running the copy loop over `k` equal chunks of `c > 0` bytes that stay
within both budgets advances the counters by `k * c` and writes all `k`
chunks. -/
theorem copyAux_replicate (dname : String) (e : ZipEntry) (c : Nat) (hc : 0 < c)
    (hwfail : e.writeFail = none) :
    ∀ (k idx wf tw : Nat) (acc rest : List Nat),
      wf + k * c ≤ maxPerFileUncompressed →
      tw + k * c ≤ maxTotalUncompressedBytes →
      copyAux dname e (List.replicate k c ++ rest) idx wf tw acc =
        copyAux dname e rest (idx + k) (wf + k * c) (tw + k * c)
          (List.replicate k c ++ acc) := by
  intro k
  induction k with
  | zero => intro idx wf tw acc rest h1 h2; simp
  | succ k ih =>
    intro idx wf tw acc rest h1 h2
    have hkc : (k + 1) * c = k * c + c := by ring
    have hpf : ¬ wf + c > maxPerFileUncompressed := by omega
    have htot : ¬ tw + c > maxTotalUncompressedBytes := by omega
    have hwf2 : e.writeFail ≠ some idx := by rw [hwfail]; simp
    rw [List.replicate_succ, List.cons_append]
    have hstep : copyAux dname e (c :: (List.replicate k c ++ rest)) idx wf tw acc =
        copyAux dname e (List.replicate k c ++ rest) (idx + 1) (wf + c) (tw + c) (c :: acc) := by
      simp [copyAux, hc, hpf, htot, hwf2]
    rw [hstep, ih (idx + 1) (wf + c) (tw + c) (c :: acc) rest (by omega) (by omega)]
    rw [show idx + 1 + k = idx + (k + 1) from by omega,
        show wf + c + k * c = wf + (k + 1) * c from by omega,
        show tw + c + k * c = tw + (k + 1) * c from by omega,
        List.append_cons, ← List.replicate_succ', List.replicate_succ, List.cons_append]

/-- One chunk that breaches the per-file budget: counted, checked, never
written; the partial file is removed and the structured 400 returned. -/
theorem copyAux_single_breach (dname : String) (e : ZipEntry) (idx wf tw : Nat)
    (acc : List Nat) (n : Nat) (hn : 0 < n) (hb : wf + n > maxPerFileUncompressed) :
    copyAux dname e [n] idx wf tw acc =
      .abort (jsonValidationError 400 "File too large after decompression" dname)
        (tw + n) acc.reverse true := by
  simp [copyAux, hn, hb]

/-! ## Claim C3 -/

/-- C3 (counterexample): extracting a single-entry archive whose stream
delivers 3201 full 64 KiB reads (the 200 MiB per-file budget falls inside the
3201st chunk), the loop aborts with the aggregate counter at 209 780 736 while
the bytes actually written to disk sum to 209 715 200: the final chunk was
added to the counter *before* the budget check and was never written, so the
counter does not equal the sum of written chunk lengths at that point. -/
theorem streaming_counter_exceeds_bytes_written_at_abort :
    (∃ w : List Nat,
      copyLoop "big.zip" bigEntry 0 =
        .abort (jsonValidationError 400 "File too large after decompression" "big.zip")
          209780736 w true ∧
      w.sum = 209715200) ∧
    (209780736 : Nat) ≠ 209715200 := by
  refine ⟨⟨List.replicate 3200 65536, ?_, ?_⟩, by decide⟩
  · show copyAux "big.zip" bigEntry bigChunks 0 0 0 [] = _
    rw [show bigChunks = List.replicate 3200 65536 ++ [65536] from rfl]
    rw [copyAux_replicate "big.zip" bigEntry 65536 (by decide) rfl 3200 0 0 0 [] [65536]
      (by decide) (by decide)]
    rw [copyAux_single_breach "big.zip" bigEntry (0 + 3200) (0 + 3200 * 65536)
      (0 + 3200 * 65536) (List.replicate 3200 65536 ++ []) 65536 (by decide) (by decide)]
    rw [List.append_nil, List.reverse_replicate]
  · rw [List.sum_replicate]
    norm_num

/-- C3 (amended): the running aggregate counter counts the bytes *read* from
the decompression stream — each chunk is added before the budget checks and
before it is written — so whenever an entry's copy completes, the counter
advanced by exactly the sum of the chunk lengths written, and on a budget
abort it exceeds the bytes written by exactly the breaching, never-written
chunk.  The counter is driven by actual reads only, independent of declared
metadata (the entry's declared sizes do not occur in the loop). -/
theorem streaming_counter_tracks_bytes_read (dname : String) (e : ZipEntry) (tw : Nat)
    (htw : tw ≤ maxTotalUncompressedBytes) :
    (∀ twq wq, copyLoop dname e tw = .done twq wq → twq = tw + wq.sum) ∧
    (∀ resp twq wq, copyLoop dname e tw = .abort resp twq wq true →
        ∃ n, 0 < n ∧ twq = tw + wq.sum + n) := by
  have h := copyAux_spec dname e e.chunks 0 0 tw [] rfl (Nat.zero_le _) htw
  constructor
  · intro twq wq hq
    have := (h.1 twq wq hq).1
    simpa using this
  · intro resp twq wq hq
    obtain ⟨m, hm, hme⟩ := (h.2 resp twq wq true hq).2.2.1 rfl
    exact ⟨m, hm, by simpa using hme⟩

/-- Witness for the amended C3 theorem: a completed 10-byte entry advances the
counter by its written sum, and a one-chunk budget breach leaves the counter
ahead of the (empty) written log. -/
theorem streaming_counter_tracks_bytes_read_witness :
    (10 : Nat) = 0 + [10].sum ∧
    ∃ n, 0 < n ∧ (300000000 : Nat) = 0 + ([] : List Nat).sum + n :=
  ⟨(streaming_counter_tracks_bytes_read "s.zip" smallEntry 0 (by decide)).1
      10 [10] (by decide),
   (streaming_counter_tracks_bytes_read "h.zip" hugeChunkEntry 0 (by decide)).2
      (jsonValidationError 400 "File too large after decompression" "h.zip")
      300000000 [] (by decide)⟩

/-- A continuing entry preserves the extraction invariant: files within the
per-file budget, on-disk bytes equal to the aggregate counter, counter within
the aggregate budget. -/
theorem processEntry_cont_inv (cwd destDir : String) (st : ExtractState) (e : ZipEntry)
    (stN : ExtractState) (h : processEntry cwd destDir st e = .cont stN)
    (hFiles : FilesOk st) (hdisk : diskTotal st = st.totalWritten)
    (htw : st.totalWritten ≤ maxTotalUncompressedBytes) :
    FilesOk stN ∧ diskTotal stN = stN.totalWritten ∧
      stN.totalWritten ≤ maxTotalUncompressedBytes := by
  have hspec := copyAux_spec e.name e e.chunks 0 0 st.totalWritten [] rfl (Nat.zero_le _) htw
  unfold processEntry at h
  split_ifs at h with h1 h2 h3 h4 h5 h6 h7
  · injection h with hh
    subst hh
    exact ⟨hFiles, hdisk, htw⟩
  · injection h with hh
    subst hh
    exact ⟨hFiles, hdisk, htw⟩
  · cases hc : copyLoop e.name e st.totalWritten with
    | done tw w =>
      rw [hc] at h
      simp only at h
      injection h with hh
      subst hh
      obtain ⟨e1, e2, e3⟩ := hspec.1 tw w hc
      simp only [List.sum_nil, Nat.add_zero] at e1
      refine ⟨?_, ?_, e3⟩
      · intro p hp
        rcases List.mem_append.1 hp with hp | hp
        · exact hFiles p hp
        · rcases List.mem_singleton.1 hp with rfl
          exact e2
      · simp [diskTotal, List.map_append, List.sum_append] at hdisk ⊢
        omega
    | abort resp tw w removed =>
      rw [hc] at h
      simp only at h
      exact absurd h (by simp)

/-- A stopping entry leaves a state whose files respect the per-file budget
and whose on-disk bytes respect the aggregate budget (the aggregate counter
itself may exceed the bytes on disk by the breaching chunk). -/
theorem processEntry_stop_inv (cwd destDir : String) (st : ExtractState) (e : ZipEntry)
    (resp : GoResponse) (stN : ExtractState)
    (h : processEntry cwd destDir st e = .stop resp stN)
    (hFiles : FilesOk st) (hdisk : diskTotal st = st.totalWritten)
    (htw : st.totalWritten ≤ maxTotalUncompressedBytes) :
    FilesOk stN ∧ diskTotal stN ≤ maxTotalUncompressedBytes := by
  have hspec := copyAux_spec e.name e e.chunks 0 0 st.totalWritten [] rfl (Nat.zero_le _) htw
  unfold processEntry at h
  split_ifs at h with h1 h2 h3 h4 h5 h6 h7
  · injection h with _ hh
    subst hh
    exact ⟨hFiles, by omega⟩
  · injection h with _ hh
    subst hh
    exact ⟨hFiles, by omega⟩
  · simp only at h
    injection h with _ hh
    subst hh
    exact ⟨hFiles, by omega⟩
  · simp only at h
    injection h with _ hh
    subst hh
    exact ⟨hFiles, by omega⟩
  · simp only at h
    injection h with _ hh
    subst hh
    exact ⟨hFiles, by omega⟩
  · cases hc : copyLoop e.name e st.totalWritten with
    | done tw w =>
      rw [hc] at h
      simp only at h
      exact absurd h (by simp)
    | abort resp2 tw w removed =>
      rw [hc] at h
      simp only at h
      injection h with _ hh
      subst hh
      obtain ⟨s1, s2, s3, s4, s5⟩ := hspec.2 resp2 tw w removed hc
      simp only [List.sum_nil, Nat.add_zero] at s2
      cases removed with
      | true =>
        refine ⟨?_, ?_⟩
        · intro p hp
          simp at hp
          exact hFiles p hp
        · simp [diskTotal] at hdisk ⊢
          omega
      | false =>
        refine ⟨?_, ?_⟩
        · intro p hp
          simp at hp
          rcases hp with hp | hp
          · exact hFiles p hp
          · subst hp
            exact s1
        · simp [diskTotal, List.map_append, List.sum_append] at hdisk ⊢
          omega

/-- The extraction invariant holds at the end of the loop, completed or
aborted: every entry-list prefix of any archive is itself an instance of the
quantifier, so this is the per-entry-step statement of the invariant. -/
theorem extract_inv (cwd destDir : String) :
    ∀ (entries : List ZipEntry) (st : ExtractState),
      FilesOk st → diskTotal st = st.totalWritten →
      st.totalWritten ≤ maxTotalUncompressedBytes →
      (∀ stq, extractAll cwd destDir entries st = .ok stq →
          FilesOk stq ∧ diskTotal stq = stq.totalWritten ∧
          stq.totalWritten ≤ maxTotalUncompressedBytes) ∧
      (∀ resp stq, extractAll cwd destDir entries st = .error (resp, stq) →
          FilesOk stq ∧ diskTotal stq ≤ maxTotalUncompressedBytes) := by
  intro entries
  induction entries with
  | nil =>
    intro st hF hd ht
    constructor
    · intro stq h
      simp [extractAll] at h
      subst h
      exact ⟨hF, hd, ht⟩
    · intro resp stq h
      simp [extractAll] at h
  | cons e rest ih =>
    intro st hF hd ht
    constructor
    · intro stq h
      cases hp : processEntry cwd destDir st e with
      | cont stN =>
        rw [show extractAll cwd destDir (e :: rest) st = extractAll cwd destDir rest stN from by
          simp [extractAll, hp]] at h
        obtain ⟨g1, g2, g3⟩ := processEntry_cont_inv cwd destDir st e stN hp hF hd ht
        exact (ih stN g1 g2 g3).1 stq h
      | stop resp stN =>
        rw [show extractAll cwd destDir (e :: rest) st = .error (resp, stN) from by
          simp [extractAll, hp]] at h
        exact absurd h (by simp)
    · intro resp stq h
      cases hp : processEntry cwd destDir st e with
      | cont stN =>
        rw [show extractAll cwd destDir (e :: rest) st = extractAll cwd destDir rest stN from by
          simp [extractAll, hp]] at h
        obtain ⟨g1, g2, g3⟩ := processEntry_cont_inv cwd destDir st e stN hp hF hd ht
        exact (ih stN g1 g2 g3).2 resp stq h
      | stop resp2 stN =>
        rw [show extractAll cwd destDir (e :: rest) st = .error (resp2, stN) from by
          simp [extractAll, hp]] at h
        simp only [Except.error.injEq, Prod.mk.injEq] at h
        obtain ⟨hr, hs⟩ := h
        subst hr
        subst hs
        exact processEntry_stop_inv _ _ _ _ _ _ hp hF hd ht

/-! ## Claim C10 -/

/-- C10 (confirmed): on every extraction — completed or aborted, and at every
entry boundary, since the entry list is universally quantified and prefixes
are instances — every file on disk under the destination holds at most the
200 MiB per-file budget and the bytes on disk total at most the 500 MiB
aggregate budget; moreover a budget breach (either structured size response)
happens only with the partial file removed before the abort, the written
bytes of the breaching file still within both budgets — the breaching chunk,
counted before the check, is never written. -/
theorem upload_extraction_respects_budgets (cwd destDir : String) (entries : List ZipEntry) :
    (FilesOk (extractResultState (extractAll cwd destDir entries emptySt)) ∧
     diskTotal (extractResultState (extractAll cwd destDir entries emptySt)) ≤
       maxTotalUncompressedBytes) ∧
    (∀ dname e2 tw resp twq wq rem,
      tw ≤ maxTotalUncompressedBytes →
      copyLoop dname e2 tw = .abort resp twq wq rem →
      (resp = jsonValidationError 400 "File too large after decompression" dname ∨
       resp = jsonValidationError 400 "Archive total uncompressed size limit exceeded" "") →
      rem = true ∧ wq.sum ≤ maxPerFileUncompressed ∧
        tw + wq.sum ≤ maxTotalUncompressedBytes) := by
  constructor
  · have hinv := extract_inv cwd destDir entries emptySt
      (by intro p hp; simp [emptySt] at hp) rfl (Nat.zero_le _)
    cases he : extractAll cwd destDir entries emptySt with
    | ok stq =>
      obtain ⟨g1, g2, g3⟩ := hinv.1 stq he
      exact ⟨by simpa [extractResultState] using g1, by simp [extractResultState]; omega⟩
    | error pr =>
      obtain ⟨resp, stq⟩ := pr
      obtain ⟨g1, g2⟩ := hinv.2 resp stq he
      exact ⟨by simpa [extractResultState] using g1, by simpa [extractResultState] using g2⟩
  · intro dname e2 tw resp twq wq rem htw hc hor
    have hspec := copyAux_spec dname e2 e2.chunks 0 0 tw [] rfl (Nat.zero_le _) htw
    obtain ⟨s1, s2, s3, s4, s5⟩ := hspec.2 resp twq wq rem hc
    exact ⟨s5 hor, s1, by simpa using s2⟩

/-- Witness for C10 at concrete inputs: the empty archive, and a one-chunk
per-file breach whose partial file is removed with nothing written. -/
theorem upload_extraction_respects_budgets_witness :
    (FilesOk (extractResultState (extractAll "/" "/games/g" [] emptySt)) ∧
     diskTotal (extractResultState (extractAll "/" "/games/g" [] emptySt)) ≤
       maxTotalUncompressedBytes) ∧
    (true = true ∧ ([] : List Nat).sum ≤ maxPerFileUncompressed ∧
      0 + ([] : List Nat).sum ≤ maxTotalUncompressedBytes) :=
  ⟨(upload_extraction_respects_budgets "/" "/games/g" []).1,
   (upload_extraction_respects_budgets "/" "/games/g" []).2 "h.zip" hugeChunkEntry 0
     (jsonValidationError 400 "File too large after decompression" "h.zip")
     300000000 [] true (by decide) (by decide) (Or.inl rfl)⟩

/-- C4 (amended): a path-traversal abort is reported with the *plain-text*
400 `http.Error` body "Invalid file path in zip: <name>", not the structured
JSON validation body; the structured body is what the streaming size-limit
breaches produce (and the bomb detector's rejections reuse). -/
theorem traversal_plain_400_limits_structured (cwd destDir : String)
    (st : ExtractState) (e : ZipEntry)
    (h1 : strStartsWith e.name "__MACOSX/" = false)
    (h2 : validateZipFilePath cwd e.name destDir = false) :
    (processEntry cwd destDir st e =
        .stop (.plainText 400 ("Invalid file path in zip: " ++ e.name)) st ∧
      isJsonValidationResp (.plainText 400 ("Invalid file path in zip: " ++ e.name)) = false) ∧
    (∀ dname e2 tw resp twq wq, tw ≤ maxTotalUncompressedBytes →
      copyLoop dname e2 tw = .abort resp twq wq true →
      isJsonValidationResp resp = true) := by
  refine ⟨⟨by simp [processEntry, h1, h2], rfl⟩, ?_⟩
  intro dname e2 tw resp twq wq htw hc
  exact ((copyAux_spec dname e2 e2.chunks 0 0 tw [] rfl (Nat.zero_le _) htw).2
    resp twq wq true hc).2.2.2.1 rfl

/-- Witness for the amended C4 theorem at concrete inputs. -/
theorem traversal_plain_400_limits_structured_witness :
    (processEntry "/" "/games/g" emptySt evilEntry =
        .stop (.plainText 400 ("Invalid file path in zip: " ++ evilEntry.name)) emptySt ∧
      isJsonValidationResp
        (.plainText 400 ("Invalid file path in zip: " ++ evilEntry.name)) = false) ∧
    isJsonValidationResp
      (jsonValidationError 400 "File too large after decompression" "h.zip") = true :=
  ⟨(traversal_plain_400_limits_structured "/" "/games/g" emptySt evilEntry
      (by decide) (by decide)).1,
   (traversal_plain_400_limits_structured "/" "/games/g" emptySt evilEntry
      (by decide) (by decide)).2 "h.zip" hugeChunkEntry 0
     (jsonValidationError 400 "File too large after decompression" "h.zip")
     300000000 [] (by decide) (by decide)⟩

/-- C6 (amended): for a single counted entry with both effective declared
sizes nonzero (and the declared total within the aggregate gate that is
checked first), the bomb detector reports "excessive compression ratio"
exactly when the truncating integer quotient `uc / cs` of the declared sizes
exceeds 100 — that is, when `uc ≥ 101 * cs`, not when the rational ratio
exceeds 100:1; an entry with either effective size zero is never
ratio-rejected. -/
theorem ratio_check_is_integer_quotient (e : ZipEntry)
    (hname : strStartsWith e.name "__MACOSX/" = false)
    (h64 : effUC e < 2 ^ 64) :
    (0 < effUC e → 0 < effCS e → effUC e ≤ maxTotalUncompressedBytes →
      (lolCheckForZipBomb [e] = .error "excessive compression ratio detected" ↔
       maxCompressionRatioLimit < effUC e / effCS e)) ∧
    (effUC e = 0 ∨ effCS e = 0 →
      lolCheckForZipBomb [e] ≠ .error "excessive compression ratio detected") := by
  have hone : ¬ (0 + 1 > maxZipEntries) := by decide
  have hrw : lolCheckForZipBomb [e] =
      (if effUC e > maxTotalUncompressedBytes then
        Except.error "total uncompressed size exceeds limit"
      else if 0 < effCS e ∧ 0 < effUC e ∧ maxCompressionRatioLimit < effUC e / effCS e then
        Except.error "excessive compression ratio detected"
      else if effUC e > maxPerFileUncompressed then
        Except.error "a file exceeds per-file uncompressed size limit"
      else Except.ok ()) := by
    simp only [lolCheckForZipBomb, bombCheckGo, hname, Bool.false_eq_true, if_false, hone,
      Nat.zero_add, Nat.mod_eq_of_lt h64]
  rw [hrw]
  constructor
  · intro huc hcs hle
    rw [if_neg (show ¬ effUC e > maxTotalUncompressedBytes by omega)]
    by_cases hr : maxCompressionRatioLimit < effUC e / effCS e
    · rw [if_pos ⟨hcs, huc, hr⟩]
      exact ⟨fun _ => hr, fun _ => rfl⟩
    · rw [if_neg (fun hcond => hr hcond.2.2)]
      constructor
      · intro hcontra
        by_cases hpf : effUC e > maxPerFileUncompressed
        · rw [if_pos hpf] at hcontra
          exact absurd (Except.error.inj hcontra) (by decide)
        · rw [if_neg hpf] at hcontra
          exact absurd hcontra (by simp)
      · intro hcontra
        exact absurd hcontra hr
  · intro hzero
    have hcond : ¬ (0 < effCS e ∧ 0 < effUC e ∧
        maxCompressionRatioLimit < effUC e / effCS e) := by
      rcases hzero with hz | hz <;> omega
    by_cases ha : effUC e > maxTotalUncompressedBytes
    · rw [if_pos ha]
      exact fun hcontra => absurd (Except.error.inj hcontra) (by decide)
    · rw [if_neg ha, if_neg hcond]
      by_cases hpf : effUC e > maxPerFileUncompressed
      · rw [if_pos hpf]
        exact fun hcontra => absurd (Except.error.inj hcontra) (by decide)
      · rw [if_neg hpf]
        exact fun hcontra => by simp at hcontra

/-- Witness for the amended C6 theorem: declared 202:2 (quotient 101) is
rejected with the ratio error; the zero-sized directory entry is never
ratio-rejected. -/
theorem ratio_check_is_integer_quotient_witness :
    lolCheckForZipBomb [ratioEntry202] = .error "excessive compression ratio detected" ∧
    lolCheckForZipBomb [bDirEntry] ≠ .error "excessive compression ratio detected" :=
  ⟨((ratio_check_is_integer_quotient ratioEntry202 (by decide) (by decide)).1
      (by decide) (by decide) (by decide)).mpr (by decide),
   (ratio_check_is_integer_quotient bDirEntry (by decide) (by decide)).2 (Or.inl (by decide))⟩
